import Mathlib

set_option autoImplicit false

/-!
Verification development for the o3skim Source/Model standardization and
skim-partitioning engine.  Python dictionaries, the working-directory
context manager, the metadata merge, the adapter failure-containment
policy and the time-partitioned write are embedded shallowly; stateful
Python code becomes explicit state passing over small state types.
-/

/-! ### Association lists (Python `dict` content, insertion ordered)

`assocGet` reads the first binding of a key; `assocSet` models Python
`d[k] = v`: an existing key keeps its position, a new key is appended. -/

def assocGet {α : Type} (d : List (String × α)) (k : String) : Option α :=
  match d with
  | [] => none
  | e :: t => if e.1 == k then some e.2 else assocGet t k

def assocSet {α : Type} (d : List (String × α)) (k : String) (v : α) :
    List (String × α) :=
  match d with
  | [] => [(k, v)]
  | e :: t => if e.1 == k then (k, v) :: t else e :: assocSet t k v

/-! ### Python object heap

Dictionaries are mutable objects; to state mutation and aliasing facts
(utils.mergedicts works in place) the embedding uses an explicit heap of
dictionary cells.  A value is a scalar (int or string) or a reference to
another dictionary cell. -/

inductive PVal where
  | int (n : Int)
  | str (s : String)
  | ref (a : Nat)
deriving DecidableEq, Repr

abbrev PDict := List (String × PVal)

abbrev Heap := List (Nat × PDict)

def heapGet (h : Heap) (a : Nat) : Option PDict :=
  match h with
  | [] => none
  | c :: t => if c.1 == a then some c.2 else heapGet t a

def heapSet (h : Heap) (a : Nat) (d : PDict) : Heap :=
  match h with
  | [] => []
  | c :: t => if c.1 == a then (a, d) :: t else c :: heapSet t a d

/-! ### utils.mergedicts (src/o3skim/utils.py lines 94-108)

    for key in d2:
        if key in d1 and isinstance(d1[key], dict) and isinstance(d2[key], dict):
            mergedicts(d1[key], d2[key])
        else:
            d1[key] = d2[key]

The call is executed against the heap; the iteration snapshots d2's key
list and, like the CPython dict iterator, every advance (including the
final exhausting one) raises RuntimeError when the iterated dict changed
size.  Recursion carries fuel because the Python original can diverge on
cyclic object graphs; `MRes.timeout` marks exhausted fuel, `MRes.exc` a
raised error (the heap at raise time is kept: partial mutations stay). -/

inductive MRes where
  | ok (h : Heap)
  | exc (h : Heap)
  | timeout
deriving DecidableEq, Repr

def mergeGo (rec : Heap → Nat → Nat → MRes) (a1 a2 : Nat) (n0 : Nat) :
    Heap → List String → MRes
  | h, [] =>
    if ((heapGet h a2).getD []).length == n0 then MRes.ok h else MRes.exc h
  | h, k :: ks =>
    if ((heapGet h a2).getD []).length != n0 then MRes.exc h
    else
      let d1 := (heapGet h a1).getD []
      let d2 := (heapGet h a2).getD []
      match assocGet d2 k with
      | none => mergeGo rec a1 a2 n0 h ks
      | some v2 =>
        match assocGet d1 k, v2 with
        | some (PVal.ref b1), PVal.ref b2 =>
          match rec h b1 b2 with
          | MRes.ok h' => mergeGo rec a1 a2 n0 h' ks
          | r => r
        | _, _ => mergeGo rec a1 a2 n0 (heapSet h a1 (assocSet d1 k v2)) ks

def mergedicts : Nat → Heap → Nat → Nat → MRes
  | 0, _, _, _ => MRes.timeout
  | Nat.succ f, h, a1, a2 =>
    let d2 := (heapGet h a2).getD []
    mergeGo (mergedicts f) a1 a2 d2.length h (d2.map (fun e => e.1))

/-! ### Reading heap structures back as trees

`readVal` dereferences a value into an ordinary tree (with fuel, since
object graphs may be cyclic); it is how statements compare the logical
content of two heap dictionaries. -/

inductive MTree where
  | int (n : Int)
  | str (s : String)
  | node (kvs : List (String × MTree))
deriving Repr

def readEntries (rv : PVal → Option MTree) : PDict → Option (List (String × MTree))
  | [] => some []
  | e :: t =>
    match rv e.2, readEntries rv t with
    | some v, some r => some ((e.1, v) :: r)
    | _, _ => none

def readVal (h : Heap) : Nat → PVal → Option MTree
  | _, PVal.int n => some (MTree.int n)
  | _, PVal.str s => some (MTree.str s)
  | 0, PVal.ref _ => none
  | Nat.succ n, PVal.ref a =>
    match heapGet h a with
    | none => none
    | some d => (readEntries (readVal h n) d).map MTree.node

def readDict (h : Heap) (n : Nat) (d : PDict) : Option (List (String × MTree)) :=
  readEntries (readVal h n) d

/-- Value-level recursive merge, the functional meaning of utils.mergedicts:
for a key in both operands with two mapping values the merge recurses,
otherwise the right-hand value overwrites the left-hand one. -/
def mergeKVs : List (String × MTree) → List (String × MTree) → List (String × MTree)
  | acc, [] => acc
  | acc, (k, MTree.node m2) :: rest =>
    match assocGet acc k with
    | some (MTree.node m1) => mergeKVs (assocSet acc k (MTree.node (mergeKVs m1 m2))) rest
    | _ => mergeKVs (assocSet acc k (MTree.node m2)) rest
  | acc, (k, v) :: rest => mergeKVs (assocSet acc k v) rest

/-- The metadata merge actually performed by Source.skim
(src/o3skim/source.py line 93): `metadata = {**source_metadata, **model_metadata}`,
a one-level dict splat building a fresh dict. -/
def dictSplat (d1 d2 : PDict) : PDict :=
  d2.foldl (fun acc e => assocSet acc e.1 e.2) d1

/-! ### Attribute whitelist (spec section 4.3 step 2)

The canonical attribute whitelist.  The stripping function
`delete_non_CFConvention_attributes` is called by both load functions. -/

def CF_ATTRIBUTE_WHITELIST : List String :=
  ["standard_name", "long_name", "units", "cell_methods", "bounds"]

/-- Modelled from the spec: `utils.delete_non_CFConvention_attributes` is
called from src/o3skim/loadfunctions_tco3/CCMI-1_NIWA.py and
src/o3skim/loadfunctions_zmo3/CCMI-1_CHASER.py but its definition is not
under src/; the spec says it strips every attribute whose key is not in
the whitelist. -/
def deleteNonCFAttributes (attrs : List (String × String)) : List (String × String) :=
  attrs.filter (fun e => CF_ATTRIBUTE_WHITELIST.contains e.1)

/-! ### utils.cd (src/o3skim/utils.py lines 19-36)

The scoped working-directory change:

    prevdir = os.getcwd()
    os.chdir(os.path.expanduser(dir))
    try:
        yield
    finally:
        os.chdir(prevdir)

The filesystem state is the current working directory plus the set of
existing directories; `chdir` fails when the target does not exist, in
which case the working directory is unchanged.  The body run inside the
context is a sequence of commands that may change directory or raise. -/

structure DirState where
  cwd : String
  dirs : List String
deriving DecidableEq, Repr

def chdir (d : String) (s : DirState) : Except Unit DirState :=
  if s.dirs.contains d then Except.ok { s with cwd := d } else Except.error ()

inductive BodyCmd where
  | chdirTo (d : String)
  | raiseErr
deriving DecidableEq, Repr

def runBody : List BodyCmd → DirState → Except Unit Unit × DirState
  | [], s => (Except.ok (), s)
  | BodyCmd.chdirTo d :: rest, s =>
    match chdir d s with
    | Except.ok s' => runBody rest s'
    | Except.error _ => (Except.error (), s)
  | BodyCmd.raiseErr :: _, s => (Except.error (), s)

/-- Path expansion (os.path.expanduser) is irrelevant to directory
restoration; it is kept as a marker of where the original applies it. -/
def expandUserPath (d : String) : String := d

def cd (dir : String) (body : List BodyCmd) (s : DirState) :
    Except Unit Unit × DirState :=
  let prevdir := s.cwd
  match chdir (expandUserPath dir) s with
  | Except.error _ => (Except.error (), s)
  | Except.ok s1 =>
    let r := runBody body s1
    match chdir prevdir r.2 with
    | Except.ok s2 => (r.1, s2)
    | Except.error _ => (Except.error (), r.2)

/-! ### vmro3 unit standardization (src/o3skim/loadfunctions_zmo3/CCMI-1_CHASER.py lines 41-45)

    dataset[DATA_VARIABLE] /= CONVERSION[dataset[DATA_VARIABLE].units]
    dataset[DATA_VARIABLE].attrs["units"] = STANDARD_UNIT
    dataset[DATA_VARIABLE] = dataset[DATA_VARIABLE].astype("float32")

A variable carries its values, its storage dtype and its attribute map. -/

structure ZVar where
  values : List Rat
  dtype : String
  attrs : List (String × String)
deriving DecidableEq, Repr

/-- Modelled from the spec: VMRO3_UNITS_CONVERSION and VMRO3_STANDARD_UNIT
come from o3skim.settings, which is not under src/; the spec describes a
fixed units-to-multiplier lookup keyed by the raw declared unit string,
so the table is an explicit finite map argument.  A missing units
attribute or an unlisted unit string raises (AttributeError resp.
KeyError), which fails the adapter. -/
def zmo3UnitStep (conversion : List (String × Rat)) (standardUnit : String)
    (v : ZVar) : Except String ZVar :=
  match assocGet v.attrs "units" with
  | none => Except.error "AttributeError"
  | some u =>
    match assocGet conversion u with
    | none => Except.error "KeyError"
    | some c =>
      Except.ok { values := v.values.map (fun x => x / c)
                  dtype := "float32"
                  attrs := assocSet v.attrs "units" standardUnit }

/-! ### Time-partitioned skim output (src/o3skim/source.py lines 154-180)

A standardized model dataset is abstracted to its time axis (the
calendar year of each record) and which canonical variables it holds;
partitioning and file naming only depend on these. -/

structure SkimDS where
  times : List Int
  hasTco3 : Bool
  hasVmro3 : Bool
deriving DecidableEq, Repr

/-- Modelled from the spec: the extended_xarray model accessor method
groupby_year is not under src/; the spec says groupby=year makes one
partition per distinct calendar year present on the time axis, slicing
the matching records. -/
def groupbyYear (ds : SkimDS) : List (Int × SkimDS) :=
  ds.times.dedup.map (fun y =>
    (y, { ds with times := ds.times.filter (fun t => t == y) }))

def decadeOf (y : Int) : Int := y - y % 10

/-- Modelled from the spec: the extended_xarray model accessor method
groupby_decade is not under src/; the spec says groupby=decade makes one
partition per distinct decade-start (year minus year mod 10) present. -/
def groupbyDecade (ds : SkimDS) : List (Int × SkimDS) :=
  (ds.times.map decadeOf).dedup.map (fun d =>
    (d, { ds with times := ds.times.filter (fun t => decadeOf t == d) }))

def tco3PathYear (y : Int) : String :=
  "tco3_zm_" ++ toString y ++ "-" ++ toString (y + 1) ++ ".nc"

def vmro3PathYear (y : Int) : String :=
  "vmro3_zm_" ++ toString y ++ "-" ++ toString (y + 1) ++ ".nc"

def tco3PathDecade (y : Int) : String :=
  "tco3_zm_" ++ toString y ++ "-" ++ toString (y + 10) ++ ".nc"

def vmro3PathDecade (y : Int) : String :=
  "vmro3_zm_" ++ toString y ++ "-" ++ toString (y + 10) ++ ".nc"

structure SkimOutput where
  tco3Files : List (String × SkimDS)
  vmro3Files : List (String × SkimDS)
deriving DecidableEq, Repr

/-- Embedding of `_skim` (src/o3skim/source.py lines 154-180).  The
accessor call `model.model.skim()` (extended_xarray, not under src/)
reduces the variables but leaves the time axis and the set of present
canonical variables unchanged, so partitioning applies directly to the
abstracted dataset.  `years, datasets = zip(*groups)` raises when the
group list is empty, hence the error case. -/
def skimPartition (model : SkimDS) (delta : Option String) : Except String SkimOutput :=
  if delta = some "year" then
    let groups := groupbyYear model
    if groups.isEmpty then Except.error "zip: empty groups" else
    Except.ok { tco3Files := if model.hasTco3 then
                  groups.map (fun g => (tco3PathYear g.1, g.2)) else []
                vmro3Files := if model.hasVmro3 then
                  groups.map (fun g => (vmro3PathYear g.1, g.2)) else [] }
  else if delta = some "decade" then
    let groups := groupbyDecade model
    if groups.isEmpty then Except.error "zip: empty groups" else
    Except.ok { tco3Files := if model.hasTco3 then
                  groups.map (fun g => (tco3PathDecade g.1, g.2)) else []
                vmro3Files := if model.hasVmro3 then
                  groups.map (fun g => (vmro3PathDecade g.1, g.2)) else [] }
  else
    Except.ok { tco3Files := if model.hasTco3 then [("tco3_zm.nc", model)] else []
                vmro3Files := if model.hasVmro3 then [("vmro3_zm.nc", model)] else [] }

/-! ### Partition file writing (spec section 4.4, sources.py Model.skim)

The on-disk state maps each path to the list of datasets appended to it;
a freshly created file holds the empty list. -/

abbrev FileSys := List (String × List SkimDS)

/-- Modelled from the spec: utils.to_netcdf (called by sources.py
Model.skim, lines 41-47) is not under src/.  Per the spec, writing is
create-then-append: a missing destination file is first created empty. -/
def createEmptyIfMissing (fs : FileSys) (p : String) : FileSys :=
  match assocGet fs p with
  | some _ => fs
  | none => fs ++ [(p, [])]

/-- The underlying multi-file writer in append mode: it requires a
pre-existing destination file and fails otherwise. -/
def appendModeWrite (fs : FileSys) (p : String) (d : SkimDS) : Option FileSys :=
  match assocGet fs p with
  | none => none
  | some c => some (assocSet fs p (c ++ [d]))

/-- Modelled from the spec: the create-then-append partition write of
utils.to_netcdf. -/
def toNetcdf (fs : FileSys) (p : String) (d : SkimDS) : Option FileSys :=
  appendModeWrite (createEmptyIfMissing fs p) p d

/-! ### Source and model loading (src/o3skim/source.py lines 49-58 and 97-136)

The adapter call for one canonical-variable entry (xr.open_mfdataset
followed by standardization.standardize_tco3 / standardize_vmro3, the
latter module not under src/) is abstracted by its outcome: a
standardized variable or a raised error. -/

structure StdVar where
  values : List Rat
deriving DecidableEq, Repr

structure VarEntry where
  adapter : Except String StdVar
  metadata : List (String × String)

structure ModelSpec where
  tco3_zm : Option VarEntry
  vmro3_zm : Option VarEntry
  metadata : List (String × String)

structure MVar where
  var : StdVar
  attrs : List (String × String)
deriving DecidableEq, Repr

structure MDataset where
  data_vars : List (String × MVar)
  attrs : List (String × String)
deriving DecidableEq, Repr

/-- utils.return_on_failure (src/o3skim/utils.py lines 39-59): run the
operation; on any raised error log it and return the default instead. -/
def returnOnFailure {α : Type} (f : Except String α) (default : Option α) : Option α :=
  match f with
  | Except.ok a => some a
  | Except.error _ => default

/-- The tco3_zm block of `_load_model`: when the entry is present, run
its adapter; a raised error propagates, a standardized variable is
merged into the dataset with the entry's metadata as its attributes. -/
def loadTco3Step (ds : MDataset) : Option VarEntry → Except String MDataset
  | none => Except.ok ds
  | some e =>
    match e.adapter with
    | Except.ok v => Except.ok { ds with data_vars :=
        ds.data_vars ++ [("tco3_zm", { var := v, attrs := e.metadata })] }
    | Except.error msg => Except.error msg

/-- The vmro3_zm block of `_load_model`, run after the tco3_zm block. -/
def loadVmro3Step (ds : MDataset) : Option VarEntry → Except String MDataset
  | none => Except.ok ds
  | some e =>
    match e.adapter with
    | Except.ok v => Except.ok { ds with data_vars :=
        ds.data_vars ++ [("vmro3_zm", { var := v, attrs := e.metadata })] }
    | Except.error msg => Except.error msg

/-- The body of `_load_model` (src/o3skim/source.py lines 97-136): start
from a dataset holding only the model metadata, then run the tco3_zm
block and then the vmro3_zm block; any raised error aborts the whole
body (there is no per-variable containment inside it). -/
def loadModelCore (s : ModelSpec) : Except String MDataset :=
  match loadTco3Step { data_vars := [], attrs := s.metadata } s.tco3_zm with
  | Except.error msg => Except.error msg
  | Except.ok ds1 =>
    match loadVmro3Step ds1 s.vmro3_zm with
    | Except.error msg => Except.error msg
    | Except.ok ds2 => Except.ok ds2

/-- `_load_model` is decorated with return_on_failure with default None. -/
def loadModel (s : ModelSpec) : Option MDataset :=
  returnOnFailure (loadModelCore s) none

/-- xarray Dataset truthiness: a dataset is truthy when it holds at
least one data variable (`if model:` in Source.__init__). -/
def datasetTruthy (ds : MDataset) : Bool := !ds.data_vars.isEmpty

structure SourceState where
  sname : String
  smetadata : List (String × String)
  modelsTable : List (String × MDataset)
deriving DecidableEq, Repr

/-- The model-loading loop of Source.__init__: for each (name, spec) the
model is loaded under _load_model's containment; only a truthy result is
inserted into the models table. -/
def loadModelsLoop (acc : List (String × MDataset)) :
    List (String × ModelSpec) → List (String × MDataset)
  | [] => acc
  | c :: rest =>
    loadModelsLoop
      (match loadModel c.2 with
       | some ds => if datasetTruthy ds then acc ++ [(c.1, ds)] else acc
       | none => acc) rest

/-- Source.__init__ (src/o3skim/source.py lines 49-58). -/
def sourceInit (name : String) (metadata : List (String × String))
    (collections : List (String × ModelSpec)) : SourceState :=
  { sname := name
    smetadata := metadata
    modelsTable := loadModelsLoop [] collections }

/-- The Source.models property: `list(self._models.keys())`. -/
def SourceState.modelsListing (s : SourceState) : List String :=
  s.modelsTable.map (fun p => p.1)

/-! ### The older sources.py Source/Model (src/o3skim/sources.py)

Model.__init__ invokes `__get_tco3_zm` and `__get_vmro3_zm`, each
decorated with utils.return_on_failure: a failure leaves the
corresponding attribute unset and loading continues. -/

structure SVarEntry where
  adapter : Except String StdVar

structure SourcesModel where
  tco3_zm : Option StdVar
  vmro3_zm : Option StdVar
deriving DecidableEq, Repr

/-- sources.py Model.__init__ (lines 33-39 with getters 49-72): each
present entry is loaded under its own return_on_failure boundary. -/
def sourcesModelInit (tco3Entry vmro3Entry : Option SVarEntry) : SourcesModel :=
  { tco3_zm := match tco3Entry with
      | none => none
      | some e => returnOnFailure e.adapter none
    vmro3_zm := match vmro3Entry with
      | none => none
      | some e => returnOnFailure e.adapter none }

/-- At least one canonical entry present and each present entry's
adapter succeeded: the condition under which _load_model produces a
truthy dataset. -/
def specLoadsOk (s : ModelSpec) : Bool :=
  (match s.tco3_zm with
   | none => true
   | some e => match e.adapter with | Except.ok _ => true | Except.error _ => false) &&
  (match s.vmro3_zm with
   | none => true
   | some e => match e.adapter with | Except.ok _ => true | Except.error _ => false) &&
  (s.tco3_zm.isSome || s.vmro3_zm.isSome)

/-- The spec-side reading of success: this canonical entry exists and
its adapter succeeded. -/
def adapterOk : Option VarEntry → Bool
  | none => false
  | some e => match e.adapter with | Except.ok _ => true | Except.error _ => false

def atLeastOneAdapterOk (s : ModelSpec) : Bool :=
  adapterOk s.tco3_zm || adapterOk s.vmro3_zm

/-! ### Concrete inputs used by counterexamples and witnesses -/

def stdVarEx : StdVar := { values := [1] }

/-- tco3_zm adapter succeeds, vmro3_zm adapter raises. -/
def specTco3OkVmro3Fail : ModelSpec :=
  { tco3_zm := some { adapter := Except.ok stdVarEx, metadata := [] }
    vmro3_zm := some { adapter := Except.error "no files to open", metadata := [] }
    metadata := [] }

/-- tco3_zm adapter raises, vmro3_zm adapter succeeds. -/
def specTco3FailVmro3Ok : ModelSpec :=
  { tco3_zm := some { adapter := Except.error "coordinate not found", metadata := [] }
    vmro3_zm := some { adapter := Except.ok stdVarEx, metadata := [] }
    metadata := [] }

/-- Only a vmro3_zm entry, and its adapter succeeds. -/
def specVmro3Only : ModelSpec :=
  { tco3_zm := none
    vmro3_zm := some { adapter := Except.ok stdVarEx, metadata := [] }
    metadata := [] }

/-- The spec's metadata merge example laid out on the heap:
cell 0 is the source metadata, its nested dict at cell 1;
cell 2 is the model metadata, its nested dict at cell 3. -/
def metadataExampleHeap : Heap :=
  [ (0, [("a", PVal.int 1), ("b", PVal.ref 1)]),
    (1, [("x", PVal.int 1)]),
    (2, [("b", PVal.ref 3), ("c", PVal.int 3)]),
    (3, [("y", PVal.int 2)]) ]

def sourceMetaDict : PDict := [("a", PVal.int 1), ("b", PVal.ref 1)]

def modelMetaDict : PDict := [("b", PVal.ref 3), ("c", PVal.int 3)]

/-- The recursive merge of the example, as the spec claims it. -/
def claimedMergeResult : List (String × MTree) :=
  [("a", MTree.int 1),
   ("b", MTree.node [("x", MTree.int 1), ("y", MTree.int 2)]),
   ("c", MTree.int 3)]

/-- Aliased input for mergedicts: d1 = cell 0 = a dict whose value at
key a is d2 itself; d2 = cell 1 with a nested dict at cell 2.
In Python: d2 = a: x: 1 nested, d1 = a: d2. -/
def mutationCexHeap : Heap :=
  [ (0, [("a", PVal.ref 1)]),
    (1, [("a", PVal.ref 2)]),
    (2, [("x", PVal.int 1)]) ]

/-! ### Reference reachability on the heap (for the mergedicts frame) -/

def refsOf (d : PDict) : List Nat :=
  d.filterMap (fun e => match e.2 with | PVal.ref b => some b | _ => none)

/-- Every reference chain from `a` has length strictly below the bound,
and every cell on it exists. -/
def boundedB (h : Heap) : Nat → Nat → Bool
  | 0, _ => false
  | Nat.succ n, a =>
    match heapGet h a with
    | none => false
    | some d => (refsOf d).all (fun b => boundedB h n b)

/-- All path occurrences of cells reachable from `a` within the given
budget; a duplicate-free result means the reachable graph is a tree. -/
def reachL (h : Heap) : Nat → Nat → List Nat
  | 0, a => [a]
  | Nat.succ n, a => a :: (refsOf ((heapGet h a).getD [])).flatMap (fun b => reachL h n b)

/-- A set of cells closed under references: the d2 side of a merge
stays inside it. -/
def closedRefs (h : Heap) (S : List Nat) : Prop :=
  ∀ c ∈ S, ∀ b ∈ refsOf ((heapGet h c).getD []), b ∈ S

/-- Every cell of the set holds a dict with duplicate-free keys, as every
Python dict does. -/
def wfKeys (h : Heap) (S : List Nat) : Prop :=
  ∀ c ∈ S, (((heapGet h c).getD []).map (fun e => e.1)).Nodup

/-- A witness dataset: records in years 2000, 2000 and 2015. -/
def skimDSEx : SkimDS := { times := [2000, 2000, 2015], hasTco3 := true, hasVmro3 := false }

/-- A witness variable for the unit conversion step. -/
def zvarEx : ZVar := { values := [3], dtype := "float64", attrs := [("units", "ppmv")] }

/-! ### The multi-file writer itself (xr.save_mfdataset)

source.py's _skim (lines 168-180) calls xr.save_mfdataset(datasets,
paths) directly, with the DEFAULT mode "w" and no prior file creation;
only the (spec-modelled) utils.to_netcdf path uses mode "a". -/

inductive WriteMode where
  | write
  | append
deriving DecidableEq, Repr

/-- xarray save_mfdataset over the file-system model: writes each
(path, dataset) pair with the given mode.  Mode "w" creates or truncates
the destination; mode "a" requires a pre-existing file and appends (the
precondition behind the create-then-append pattern). -/
def saveMfdataset (mode : WriteMode) : FileSys → List (String × SkimDS) → Option FileSys
  | fs, [] => some fs
  | fs, (p, d) :: rest =>
    match mode with
    | WriteMode.write =>
      match assocGet fs p with
      | some _ => saveMfdataset mode (assocSet fs p [d]) rest
      | none => saveMfdataset mode (fs ++ [(p, [d])]) rest
    | WriteMode.append =>
      match appendModeWrite fs p d with
      | some fs' => saveMfdataset mode fs' rest
      | none => none

/-- The partition write performed by _skim (src/o3skim/source.py lines
168-180): `xr.save_mfdataset(datasets=..., paths=...)` in the default
write mode, with no create-empty step. -/
def skimSaveFiles (fs : FileSys) (files : List (String × SkimDS)) : Option FileSys :=
  saveMfdataset WriteMode.write fs files

/-- A second witness dataset, distinct from skimDSEx. -/
def skimDSEx2 : SkimDS := { times := [2001], hasTco3 := true, hasVmro3 := false }

/-! ## Helper lemmas -/

theorem assocGet_assocSet_self {α : Type} (d : List (String × α)) (k : String)
    (v : α) : assocGet (assocSet d k v) k = some v := by
  induction d with
  | nil => simp [assocGet, assocSet]
  | cons e t ih =>
    by_cases h : e.1 = k
    · simp [assocGet, assocSet, h]
    · simpa [assocGet, assocSet, h] using ih

theorem assocGet_assocSet_ne {α : Type} (d : List (String × α)) (k k' : String)
    (v : α) (h : k ≠ k') : assocGet (assocSet d k v) k' = assocGet d k' := by
  induction d with
  | nil => simp [assocGet, assocSet, h]
  | cons e t ih =>
    by_cases he : e.1 = k
    · simp [assocGet, assocSet, he, h]
    · by_cases he' : e.1 = k'
      · simp [assocGet, assocSet, he, he', Ne.symm h]
      · simpa [assocGet, assocSet, he, he'] using ih

theorem assocGet_append_right {α : Type} (d : List (String × α)) (k : String)
    (v : α) (h : assocGet d k = none) : assocGet (d ++ [(k, v)]) k = some v := by
  induction d with
  | nil => simp [assocGet]
  | cons e t ih =>
    by_cases he : e.1 = k
    · simp [assocGet, he] at h
    · simp only [assocGet, beq_iff_eq, he, if_false] at h
      simpa [assocGet, he] using ih h

theorem heapGet_heapSet_self (h : Heap) (a : Nat) (d : PDict)
    (hex : heapGet h a ≠ none) : heapGet (heapSet h a d) a = some d := by
  induction h with
  | nil => simp [heapGet] at hex
  | cons c t ih =>
    by_cases hc : c.1 = a
    · simp [heapGet, heapSet, hc]
    · simp only [heapGet, beq_iff_eq, hc, if_false] at hex
      simpa [heapGet, heapSet, hc] using ih hex

theorem heapGet_heapSet_ne (h : Heap) (a a' : Nat) (d : PDict) (hne : a ≠ a') :
    heapGet (heapSet h a d) a' = heapGet h a' := by
  induction h with
  | nil => simp [heapGet, heapSet]
  | cons c t ih =>
    by_cases hc : c.1 = a
    · simp [heapGet, heapSet, hc, hne]
    · by_cases hc' : c.1 = a'
      · simp [heapGet, heapSet, hc, hc', Ne.symm hne]
      · simpa [heapGet, heapSet, hc, hc'] using ih

theorem runBody_dirs (body : List BodyCmd) (s : DirState) :
    ((runBody body s).2).dirs = s.dirs := by
  induction body generalizing s with
  | nil => rfl
  | cons c rest ih =>
    cases c with
    | chdirTo d =>
      simp only [runBody]
      cases hch : chdir d s with
      | ok s' =>
        have hd : s'.dirs = s.dirs := by
          unfold chdir at hch
          split at hch
          · cases hch; rfl
          · cases hch
        simpa [hd] using ih s'
      | error e => rfl
    | raiseErr => rfl

/-! ## Claim theorems -/

/-- C7: for every target directory and every body run inside utils.cd,
the working directory current immediately before entering the context is
restored on every exit path, whether the body completes normally or
raises; the entry chdir failing also leaves the directory unchanged. -/
theorem cd_restores_prevdir (dir : String) (body : List BodyCmd) (s : DirState)
    (h : s.dirs.contains s.cwd = true) :
    ((cd dir body s).2).cwd = s.cwd := by
  simp only [cd]
  split
  next e hch => rfl
  next s1 hch =>
    have h1 : s1.dirs = s.dirs := by
      unfold chdir at hch
      split at hch
      · cases hch; rfl
      · cases hch
    have h2 : ((runBody body s1).2).dirs = s.dirs := by
      rw [runBody_dirs, h1]
    have hm : s.cwd ∈ s.dirs := by simpa using h
    have h3 : chdir s.cwd (runBody body s1).2 =
        Except.ok { (runBody body s1).2 with cwd := s.cwd } := by
      unfold chdir
      simp [hm, h2]
    rw [h3]

/-- C7 witness: a concrete run whose body changes directory and then
raises; the prior working directory is restored. -/
theorem cd_restores_prevdir_witness :
    ((cd "data" [BodyCmd.chdirTo "deep", BodyCmd.raiseErr]
      { cwd := "home", dirs := ["home", "data", "deep"] }).2).cwd = "home" :=
  cd_restores_prevdir "data" [BodyCmd.chdirTo "deep", BodyCmd.raiseErr]
    { cwd := "home", dirs := ["home", "data", "deep"] } (by decide)

/-- C8: the attribute filter keeps exactly the attributes whose key is in
the whitelist standard_name, long_name, units, cell_methods, bounds, and
applying it twice yields the same attribute set as applying it once. -/
theorem attribute_whitelist_filter (attrs : List (String × String)) :
    deleteNonCFAttributes (deleteNonCFAttributes attrs) = deleteNonCFAttributes attrs ∧
    ∀ e : String × String, e ∈ deleteNonCFAttributes attrs ↔
      e ∈ attrs ∧ CF_ATTRIBUTE_WHITELIST.contains e.1 = true := by
  constructor
  · induction attrs with
    | nil => rfl
    | cons e t ih =>
      by_cases hw : CF_ATTRIBUTE_WHITELIST.contains e.1 = true
      · simp [deleteNonCFAttributes, hw, ih]
      · simp only [Bool.not_eq_true] at hw
        simp [deleteNonCFAttributes, hw, ih]
  · intro e
    simp [deleteNonCFAttributes, List.mem_filter]

/-- C5: the vmro3 unit standardization step looks the raw declared unit
string up in the fixed conversion table; an unlisted unit fails the
adapter, and a listed one divides the values by the table entry, stores
them as float32 and overwrites the units attribute with the canonical
unit string. -/
theorem vmro3_unit_standardization (conversion : List (String × Rat))
    (standardUnit : String) (v : ZVar) (u : String)
    (hu : assocGet v.attrs "units" = some u) :
    (assocGet conversion u = none →
      zmo3UnitStep conversion standardUnit v = Except.error "KeyError") ∧
    (∀ c : Rat, assocGet conversion u = some c →
      zmo3UnitStep conversion standardUnit v =
        Except.ok { values := v.values.map (fun x => x / c)
                    dtype := "float32"
                    attrs := assocSet v.attrs "units" standardUnit }) := by
  constructor
  · intro hc
    simp [zmo3UnitStep, hu, hc]
  · intro c hc
    simp [zmo3UnitStep, hu, hc]

/-- C5 witness: a ppmv-declared variable is divided by the table entry,
cast to float32 and relabelled with the canonical unit. -/
theorem vmro3_unit_standardization_witness :
    zmo3UnitStep [("ppmv", (1000000 : Rat))] "mole mole-1" zvarEx =
      Except.ok { values := [(3 : Rat) / 1000000]
                  dtype := "float32"
                  attrs := [("units", "mole mole-1")] } := by
  have h := (vmro3_unit_standardization [("ppmv", (1000000 : Rat))] "mole mole-1"
    zvarEx "ppmv" (by rfl)).2 1000000 (by rfl)
  simpa [zvarEx, assocSet] using h

/-- The create-then-append property of the utils.to_netcdf write path:
it first ensures the destination file exists, creating it empty when
missing, and only then appends: after the ensure step the file exists
with its previous (or empty) content, and the whole write succeeds with
the dataset appended to that content. -/
theorem to_netcdf_create_then_append (fs : FileSys) (p : String) (d : SkimDS) :
    assocGet (createEmptyIfMissing fs p) p = some ((assocGet fs p).getD []) ∧
    toNetcdf fs p d =
      some (assocSet (createEmptyIfMissing fs p) p (((assocGet fs p).getD []) ++ [d])) := by
  cases hg : assocGet fs p with
  | some c =>
    constructor
    · simp [createEmptyIfMissing, hg]
    · simp [toNetcdf, appendModeWrite, createEmptyIfMissing, hg]
  | none =>
    have hx : assocGet (fs ++ [(p, ([] : List SkimDS))]) p = some [] :=
      assocGet_append_right fs p [] hg
    constructor
    · simp [createEmptyIfMissing, hg, hx]
    · simp [toNetcdf, appendModeWrite, createEmptyIfMissing, hg, hx]

theorem loadModelsLoop_acc (acc : List (String × MDataset))
    (l : List (String × ModelSpec)) :
    loadModelsLoop acc l = acc ++ loadModelsLoop [] l := by
  induction l generalizing acc with
  | nil => simp [loadModelsLoop]
  | cons c rest ih =>
    simp only [loadModelsLoop]
    cases hm : loadModel c.2 with
    | none => rw [ih]
    | some ds =>
      by_cases ht : datasetTruthy ds = true
      · simp only [ht, if_true, List.nil_append]
        rw [ih (acc ++ [(c.1, ds)]), ih [(c.1, ds)]]
        simp
      · simp only [Bool.not_eq_true] at ht
        simp only [ht, Bool.false_eq_true, if_false]
        rw [ih]

theorem loadModelsLoop_append (l1 l2 : List (String × ModelSpec)) :
    loadModelsLoop [] (l1 ++ l2) = loadModelsLoop [] l1 ++ loadModelsLoop [] l2 := by
  induction l1 with
  | nil => simp [loadModelsLoop]
  | cons c rest ih =>
    have h1 : (c :: rest) ++ l2 = c :: (rest ++ l2) := rfl
    rw [h1]
    simp only [loadModelsLoop]
    generalize (match loadModel c.2 with
      | some ds => if datasetTruthy ds then [] ++ [(c.1, ds)] else []
      | none => ([] : List (String × MDataset))) = M
    rw [loadModelsLoop_acc M (rest ++ l2), loadModelsLoop_acc M rest, ih]
    simp

theorem datasetTruthy_loadModel (s : ModelSpec) (ds : MDataset)
    (h : loadModel s = some ds) : datasetTruthy ds = specLoadsOk s := by
  rcases s with ⟨t, v, md⟩
  cases t with
  | none =>
    cases v with
    | none =>
      simp [loadModel, loadModelCore, loadTco3Step, loadVmro3Step,
        returnOnFailure] at h
      simp [← h, datasetTruthy, specLoadsOk]
    | some e2 =>
      cases ha : e2.adapter with
      | ok v2 =>
        simp [loadModel, loadModelCore, loadTco3Step, loadVmro3Step,
          returnOnFailure, ha] at h
        simp [← h, datasetTruthy, specLoadsOk, ha]
      | error msg =>
        simp [loadModel, loadModelCore, loadTco3Step, loadVmro3Step,
          returnOnFailure, ha] at h
  | some e =>
    cases ha : e.adapter with
    | error msg =>
      cases v with
      | none =>
        simp [loadModel, loadModelCore, loadTco3Step, loadVmro3Step,
          returnOnFailure, ha] at h
      | some e2 =>
        simp [loadModel, loadModelCore, loadTco3Step, loadVmro3Step,
          returnOnFailure, ha] at h
    | ok v1 =>
      cases v with
      | none =>
        simp [loadModel, loadModelCore, loadTco3Step, loadVmro3Step,
          returnOnFailure, ha] at h
        simp [← h, datasetTruthy, specLoadsOk, ha]
      | some e2 =>
        cases ha2 : e2.adapter with
        | ok v2 =>
          simp [loadModel, loadModelCore, loadTco3Step, loadVmro3Step,
            returnOnFailure, ha, ha2] at h
          simp [← h, datasetTruthy, specLoadsOk, ha, ha2]
        | error msg =>
          simp [loadModel, loadModelCore, loadTco3Step, loadVmro3Step,
            returnOnFailure, ha, ha2] at h

theorem specLoadsOk_of_loadModel_none (s : ModelSpec)
    (hm : loadModel s = none) : specLoadsOk s = false := by
  rcases s with ⟨t, v, md⟩
  cases t with
  | none =>
    cases v with
    | none =>
      simp [loadModel, loadModelCore, loadTco3Step, loadVmro3Step,
        returnOnFailure] at hm
    | some e2 =>
      cases ha : e2.adapter with
      | ok v2 =>
        simp [loadModel, loadModelCore, loadTco3Step, loadVmro3Step,
          returnOnFailure, ha] at hm
      | error msg => simp [specLoadsOk, ha]
  | some e =>
    cases ha : e.adapter with
    | error msg => simp [specLoadsOk, ha]
    | ok v1 =>
      cases v with
      | none =>
        simp [loadModel, loadModelCore, loadTco3Step, loadVmro3Step,
          returnOnFailure, ha] at hm
      | some e2 =>
        cases ha2 : e2.adapter with
        | ok v2 =>
          simp [loadModel, loadModelCore, loadTco3Step, loadVmro3Step,
            returnOnFailure, ha, ha2] at hm
        | error msg => simp [specLoadsOk, ha, ha2]

theorem loadModelsLoop_names (l : List (String × ModelSpec)) :
    (loadModelsLoop [] l).map (fun p => p.1) =
      (l.filter (fun c => specLoadsOk c.2)).map (fun c => c.1) := by
  induction l with
  | nil => rfl
  | cons c rest ih =>
    simp only [loadModelsLoop]
    rw [loadModelsLoop_acc]
    cases hm : loadModel c.2 with
    | none =>
      have hs := specLoadsOk_of_loadModel_none c.2 hm
      simp [hs, ih]
    | some ds =>
      have hts := datasetTruthy_loadModel c.2 ds hm
      by_cases ht : datasetTruthy ds = true
      · rw [ht] at hts
        simp [ht, ← hts, ih]
      · simp only [Bool.not_eq_true] at ht
        rw [ht] at hts
        simp [ht, ← hts, ih]

/-- C1 counterexample: a model whose tco3_zm adapter succeeds but whose
vmro3_zm adapter then raises is absent from Source.models, although one
canonical variable's adapter succeeded; the listing predicted by the
claim would contain the model name. -/
theorem source_models_listing_cex :
    (sourceInit "SourceA" [] [("ModelA", specTco3OkVmro3Fail)]).modelsListing = [] ∧
    atLeastOneAdapterOk specTco3OkVmro3Fail = true ∧
    (([("ModelA", specTco3OkVmro3Fail)].filter
      (fun c => atLeastOneAdapterOk c.2)).map (fun c => c.1)) = ["ModelA"] ∧
    ([] : List String) ≠ ["ModelA"] :=
  ⟨rfl, rfl, rfl, by simp⟩

/-- C1 amended: Source.models equals exactly the names of the models
whose specification has at least one canonical entry and all of whose
present entries' adapters succeeded (a failing adapter anywhere aborts
that whole model's load); a model is never listed with zero variables. -/
theorem source_models_exact (name : String) (md : List (String × String))
    (collections : List (String × ModelSpec)) :
    (sourceInit name md collections).modelsListing =
      (collections.filter (fun c => specLoadsOk c.2)).map (fun c => c.1) ∧
    ∀ p : String × MDataset,
      p ∈ (sourceInit name md collections).modelsTable → datasetTruthy p.2 = true := by
  constructor
  · exact loadModelsLoop_names collections
  · intro p hp
    simp only [sourceInit] at hp
    induction collections with
    | nil => simp [loadModelsLoop] at hp
    | cons c rest ih =>
      simp only [loadModelsLoop] at hp
      rw [loadModelsLoop_acc] at hp
      cases hm : loadModel c.2 with
      | none =>
        rw [hm] at hp
        simp at hp
        exact ih hp
      | some ds =>
        rw [hm] at hp
        by_cases ht : datasetTruthy ds = true
        · simp [ht] at hp
          rcases hp with hp | hp
          · subst hp; exact ht
          · exact ih hp
        · simp only [Bool.not_eq_true] at ht
          simp [ht] at hp
          exact ih hp

/-- C1 amended witness: with one fully succeeding model and one model
whose tco3_zm adapter raises, only the former is listed, and every
listed model holds at least one variable. -/
theorem source_models_exact_witness :
    (sourceInit "S" [] [("Good", specVmro3Only), ("Bad", specTco3FailVmro3Ok)]).modelsListing =
      ["Good"] := by
  have h := (source_models_exact "S" []
    [("Good", specVmro3Only), ("Bad", specTco3FailVmro3Ok)]).1
  simpa using h

/-- C2 counterexample: in source.py's _load_model the containment is
around the whole model build, so when the tco3_zm adapter raises, the
vmro3_zm entry (whose adapter would succeed) is not loaded either: the
whole load returns None and the model is absent. -/
theorem per_variable_containment_cex :
    loadModel specTco3FailVmro3Ok = none ∧
    adapterOk specTco3FailVmro3Ok.vmro3_zm = true ∧
    (sourceInit "SourceB" [] [("ModelB", specTco3FailVmro3Ok)]).modelsTable = [] :=
  ⟨rfl, rfl, rfl⟩

/-- C2 amended: an error during one model's build never aborts sibling
models of the same Source (source.py: the models table distributes over
concatenation of the collections, so each entry's outcome depends only
on its own spec); and in sources.py's Model each canonical variable is
loaded under its own failure-containment boundary: either variable's
outcome is independent of the other entry, and a succeeding adapter
loads its variable even when the sibling variable's adapter raises. -/
theorem containment_boundaries :
    (∀ (name : String) (md : List (String × String))
       (c1 c2 : List (String × ModelSpec)),
      (sourceInit name md (c1 ++ c2)).modelsTable =
        (sourceInit name md c1).modelsTable ++ (sourceInit name md c2).modelsTable) ∧
    (∀ t t' v : Option SVarEntry,
      (sourcesModelInit t v).vmro3_zm = (sourcesModelInit t' v).vmro3_zm) ∧
    (∀ t v v' : Option SVarEntry,
      (sourcesModelInit t v).tco3_zm = (sourcesModelInit t v').tco3_zm) ∧
    (∀ (t : Option SVarEntry) (e : SVarEntry) (sv : StdVar),
      e.adapter = Except.ok sv → (sourcesModelInit t (some e)).vmro3_zm = some sv) ∧
    (∀ (v : Option SVarEntry) (e : SVarEntry) (sv : StdVar),
      e.adapter = Except.ok sv → (sourcesModelInit (some e) v).tco3_zm = some sv) := by
  refine ⟨?_, ?_, ?_, ?_, ?_⟩
  · intro name md c1 c2
    simp [sourceInit, loadModelsLoop_append]
  · intro t t' v; rfl
  · intro t v v'; rfl
  · intro t e sv h
    simp [sourcesModelInit, returnOnFailure, h]
  · intro v e sv h
    simp [sourcesModelInit, returnOnFailure, h]

/-- C2 amended witness: in sources.py's Model, vmro3_zm loads even
though the tco3_zm adapter of the same model raises. -/
theorem containment_boundaries_witness :
    (sourcesModelInit (some { adapter := Except.error "coordinate not found" })
      (some { adapter := Except.ok stdVarEx })).vmro3_zm = some stdVarEx :=
  containment_boundaries.2.2.2.1
    (some { adapter := Except.error "coordinate not found" })
    { adapter := Except.ok stdVarEx } stdVarEx rfl

/-- C10: a model spec with neither canonical entry loads successfully
into a dataset holding zero data variables, which is falsy, so the model
name is absent from the listing and the rest of the construction is
unaffected, exactly as if its adapters had failed. -/
theorem empty_spec_model_absent (md : List (String × String)) (name : String)
    (smd : List (String × String)) (pre post : List (String × ModelSpec))
    (mname : String) :
    loadModel { tco3_zm := none, vmro3_zm := none, metadata := md } =
      some { data_vars := [], attrs := md } ∧
    datasetTruthy { data_vars := [], attrs := md } = false ∧
    (sourceInit name smd
      (pre ++ (mname, { tco3_zm := none, vmro3_zm := none, metadata := md }) :: post)).modelsListing =
      (sourceInit name smd (pre ++ post)).modelsListing := by
  refine ⟨rfl, rfl, ?_⟩
  simp only [SourceState.modelsListing, sourceInit]
  have h1 : pre ++ (mname, ({ tco3_zm := none, vmro3_zm := none, metadata := md } : ModelSpec)) :: post =
      pre ++ [(mname, ({ tco3_zm := none, vmro3_zm := none, metadata := md } : ModelSpec))] ++ post := by
    simp
  rw [h1, loadModelsLoop_append, loadModelsLoop_append, loadModelsLoop_append]
  have h2 : loadModelsLoop []
      [(mname, ({ tco3_zm := none, vmro3_zm := none, metadata := md } : ModelSpec))] = [] := rfl
  rw [h2]
  simp

/-- C3: for a model with a nonempty time axis, skimming with
groupby=year writes, per present canonical variable, exactly one file
per distinct calendar year y on the axis, named var_y-(y+1).nc and
holding the records of that year; with groupby=decade exactly one file
per distinct decade-start d = y - y mod 10, named var_d-(d+10).nc; and
with no grouping a single file var.nc holding all records.  The label
lists are duplicate-free and cover exactly the years (resp. the
decade-starts of the years) present on the axis. -/
theorem skim_partition_files (ds : SkimDS) (hne : ds.times ≠ []) :
    skimPartition ds (some "year") = Except.ok
      { tco3Files := if ds.hasTco3 then ds.times.dedup.map (fun y =>
          (tco3PathYear y, { ds with times := ds.times.filter (fun t => t == y) })) else []
        vmro3Files := if ds.hasVmro3 then ds.times.dedup.map (fun y =>
          (vmro3PathYear y, { ds with times := ds.times.filter (fun t => t == y) })) else [] } ∧
    ds.times.dedup.Nodup ∧
    (∀ y : Int, y ∈ ds.times.dedup ↔ y ∈ ds.times) ∧
    skimPartition ds (some "decade") = Except.ok
      { tco3Files := if ds.hasTco3 then (ds.times.map decadeOf).dedup.map (fun d =>
          (tco3PathDecade d, { ds with times := ds.times.filter (fun t => decadeOf t == d) })) else []
        vmro3Files := if ds.hasVmro3 then (ds.times.map decadeOf).dedup.map (fun d =>
          (vmro3PathDecade d, { ds with times := ds.times.filter (fun t => decadeOf t == d) })) else [] } ∧
    (ds.times.map decadeOf).dedup.Nodup ∧
    (∀ d : Int, d ∈ (ds.times.map decadeOf).dedup ↔ ∃ y ∈ ds.times, decadeOf y = d) ∧
    skimPartition ds none = Except.ok
      { tco3Files := if ds.hasTco3 then [("tco3_zm.nc", ds)] else []
        vmro3Files := if ds.hasVmro3 then [("vmro3_zm.nc", ds)] else [] } := by
  have hdne : ds.times.dedup ≠ [] := by
    simpa [List.dedup_eq_nil] using hne
  have hy : (groupbyYear ds).isEmpty = false := by
    simp [groupbyYear, List.isEmpty_iff, List.map_eq_nil_iff, hdne]
  have hmdne : (ds.times.map decadeOf).dedup ≠ [] := by
    simp [List.dedup_eq_nil, List.map_eq_nil_iff]
    exact hne
  have hd : (groupbyDecade ds).isEmpty = false := by
    simp [groupbyDecade, List.isEmpty_iff, List.map_eq_nil_iff, hmdne]
  refine ⟨?_, List.nodup_dedup _, ?_, ?_, List.nodup_dedup _, ?_, ?_⟩
  · simp [skimPartition, hy, groupbyYear, List.map_map, Function.comp_def, hne]
  · intro y; exact List.mem_dedup
  · simp [skimPartition, hd, groupbyDecade, List.map_map, Function.comp_def, hne]
  · intro d
    rw [List.mem_dedup, List.mem_map]
  · simp [skimPartition]

/-- C3 witness: a 2000, 2000, 2015 time axis with only tco3 present
gives one file per distinct year and one per distinct decade-start, with
the deterministic names. -/
theorem skim_partition_files_witness :
    skimPartition skimDSEx (some "year") = Except.ok
      { tco3Files :=
          [("tco3_zm_2000-2001.nc",
             { times := [2000, 2000], hasTco3 := true, hasVmro3 := false }),
           ("tco3_zm_2015-2016.nc",
             { times := [2015], hasTco3 := true, hasVmro3 := false })]
        vmro3Files := [] } ∧
    skimPartition skimDSEx (some "decade") = Except.ok
      { tco3Files :=
          [("tco3_zm_2000-2010.nc",
             { times := [2000, 2000], hasTco3 := true, hasVmro3 := false }),
           ("tco3_zm_2010-2020.nc",
             { times := [2015], hasTco3 := true, hasVmro3 := false })]
        vmro3Files := [] } := by
  have h := skim_partition_files skimDSEx (by simp [skimDSEx])
  refine ⟨?_, ?_⟩
  · rw [h.1]; rfl
  · rw [h.2.2.2.1]; rfl

/-- C4: evaluating the two merges at the spec's example.  The merge that
Source.skim actually performs (the one-level splat of source.py line 93)
maps b to the model's whole nested dict, losing the source's x entry,
and so differs from the claimed recursive result; utils.mergedicts (the
recursive merge the claim and the repository's own metadata tests
describe, which Source.skim does not call) produces exactly the claimed
result a:1, b: x:1 and y:2, c:3. -/
theorem skim_metadata_merge_shallow :
    readDict metadataExampleHeap 9 (dictSplat sourceMetaDict modelMetaDict) =
      some [("a", MTree.int 1), ("b", MTree.node [("y", MTree.int 2)]),
            ("c", MTree.int 3)] ∧
    readDict metadataExampleHeap 9 (dictSplat sourceMetaDict modelMetaDict) ≠
      some claimedMergeResult ∧
    mergedicts 9 metadataExampleHeap 0 2 = MRes.ok
      [ (0, [("a", PVal.int 1), ("b", PVal.ref 1), ("c", PVal.int 3)]),
        (1, [("x", PVal.int 1), ("y", PVal.int 2)]),
        (2, [("b", PVal.ref 3), ("c", PVal.int 3)]),
        (3, [("y", PVal.int 2)]) ] ∧
    readVal
      [ (0, [("a", PVal.int 1), ("b", PVal.ref 1), ("c", PVal.int 3)]),
        (1, [("x", PVal.int 1), ("y", PVal.int 2)]),
        (2, [("b", PVal.ref 3), ("c", PVal.int 3)]),
        (3, [("y", PVal.int 2)]) ] 9 (PVal.ref 0) =
      some (MTree.node claimedMergeResult) := by
  refine ⟨rfl, ?_, rfl, rfl⟩
  simp [claimedMergeResult, readDict, readEntries, readVal, dictSplat,
    sourceMetaDict, modelMetaDict, metadataExampleHeap, assocSet, heapGet]

/-! ## Reachability lemmas for the mergedicts frame property -/

theorem assocGet_ref_mem_refsOf (d : PDict) (k : String) (b : Nat)
    (h : assocGet d k = some (PVal.ref b)) : b ∈ refsOf d := by
  induction d with
  | nil => simp [assocGet] at h
  | cons e t ih =>
    by_cases hk : e.1 = k
    · simp [assocGet, hk] at h
      simp [refsOf, List.filterMap_cons, h]
    · simp only [assocGet, beq_iff_eq, hk, if_false] at h
      have hb := ih h
      simp only [refsOf, List.filterMap_cons]
      cases hv : e.2 <;> simp [refsOf] at hb ⊢ <;> simp [hb]

theorem mem_reachL_self (h : Heap) (n : Nat) (a : Nat) : a ∈ reachL h n a := by
  cases n <;> simp [reachL]

theorem reachL_sub_of_child (h : Heap) (n : Nat) (a b : Nat)
    (hb : b ∈ refsOf ((heapGet h a).getD [])) :
    ∀ c ∈ reachL h n b, c ∈ reachL h (n + 1) a := by
  intro c hc
  simp only [reachL, List.mem_cons, List.mem_flatMap]
  exact Or.inr ⟨b, hb, hc⟩

theorem nodup_of_mem_flatMap {α β : Type} (f : α → List β) (l : List α)
    (hn : (l.flatMap f).Nodup) : ∀ x ∈ l, (f x).Nodup := by
  induction l with
  | nil => simp
  | cons z t ih =>
    simp only [List.flatMap_cons] at hn
    intro x hx
    rcases List.mem_cons.1 hx with hx | hx
    · subst hx; exact hn.of_append_left
    · exact ih hn.of_append_right x hx

theorem disjoint_of_mem_flatMap {α β : Type} (f : α → List β) (l : List α)
    (hn : (l.flatMap f).Nodup) :
    ∀ x ∈ l, ∀ y ∈ l, x ≠ y → ∀ c, c ∈ f x → c ∈ f y → False := by
  induction l with
  | nil => simp
  | cons z t ih =>
    simp only [List.flatMap_cons] at hn
    have hdisj := List.disjoint_of_nodup_append hn
    intro x hx y hy hxy c hcx hcy
    rcases List.mem_cons.1 hx with hx | hx <;> rcases List.mem_cons.1 hy with hy | hy
    · exact hxy (hx.trans hy.symm)
    · exact hdisj (hx ▸ hcx) (List.mem_flatMap.2 ⟨y, hy, hcy⟩)
    · exact hdisj (hy ▸ hcy) (List.mem_flatMap.2 ⟨x, hx, hcx⟩)
    · exact ih hn.of_append_right x hx y hy hxy c hcx hcy

theorem reachL_agree (h h' : Heap) (n : Nat) (a : Nat)
    (hag : ∀ c ∈ reachL h n a, heapGet h' c = heapGet h c) :
    reachL h' n a = reachL h n a := by
  induction n generalizing a with
  | zero => rfl
  | succ n ih =>
    have ha : heapGet h' a = heapGet h a := hag a (mem_reachL_self h (n + 1) a)
    simp only [reachL, ha]
    congr 1
    refine List.flatMap_congr ?_
    intro b hb
    refine ih b ?_
    intro c hc
    exact hag c (reachL_sub_of_child h n a b hb c hc)

theorem boundedB_agree (h h' : Heap) (n : Nat) (a : Nat)
    (hag : ∀ c ∈ reachL h n a, heapGet h' c = heapGet h c) :
    boundedB h' n a = boundedB h n a := by
  induction n generalizing a with
  | zero => rfl
  | succ n ih =>
    have ha : heapGet h' a = heapGet h a := hag a (mem_reachL_self h (n + 1) a)
    simp only [boundedB, ha]
    cases hc : heapGet h a with
    | none => rfl
    | some d =>
      have hpt : ∀ b ∈ refsOf d, boundedB h' n b = boundedB h n b := by
        intro b hb
        refine ih b ?_
        intro c hcm
        refine hag c (reachL_sub_of_child h n a b ?_ c hcm)
        simpa [hc] using hb
      have hall : ∀ (L : List Nat), (∀ b ∈ L, boundedB h' n b = boundedB h n b) →
          L.all (fun b => boundedB h' n b) = L.all (fun b => boundedB h n b) := by
        intro L
        induction L with
        | nil => intro _; rfl
        | cons x t iht =>
          intro hp
          simp only [List.all_cons, hp x (by simp)]
          rw [iht (fun b hb => hp b (by simp [hb]))]
      exact hall (refsOf d) hpt

theorem closedRefs_agree (h h' : Heap) (S : List Nat)
    (hag : ∀ c ∈ S, heapGet h' c = heapGet h c) (hcl : closedRefs h S) :
    closedRefs h' S := by
  intro c hc b hb
  rw [hag c hc] at hb
  exact hcl c hc b hb

theorem wfKeys_agree (h h' : Heap) (S : List Nat)
    (hag : ∀ c ∈ S, heapGet h' c = heapGet h c) (hwf : wfKeys h S) :
    wfKeys h' S := by
  intro c hc
  rw [hag c hc]
  exact hwf c hc

theorem children_reach_disjoint (h0 : Heap) (n : Nat) (k k' : String)
    (hne : k ≠ k') :
    ∀ (d : PDict) (b b' : Nat),
      assocGet d k = some (PVal.ref b) →
      assocGet d k' = some (PVal.ref b') →
      ((refsOf d).flatMap (reachL h0 n)).Nodup →
      ∀ c, c ∈ reachL h0 n b → c ∈ reachL h0 n b' → False := by
  intro d
  induction d with
  | nil =>
    intro b b' hk
    simp [assocGet] at hk
  | cons e t ih =>
    intro b b' hk hk' hnod
    by_cases hek : e.1 = k
    · simp [assocGet, hek] at hk
      have hk'' : assocGet t k' = some (PVal.ref b') := by
        have hne' : e.1 ≠ k' := by rw [hek]; exact hne
        simpa [assocGet, hne'] using hk'
      have hrefs : refsOf (e :: t) = b :: refsOf t := by
        simp [refsOf, List.filterMap_cons, hk]
      rw [hrefs] at hnod
      simp only [List.flatMap_cons] at hnod
      have hdisj := List.disjoint_of_nodup_append hnod
      intro c hcb hcb'
      have hb't : b' ∈ refsOf t := assocGet_ref_mem_refsOf t k' b' hk''
      exact hdisj hcb (List.mem_flatMap.2 ⟨b', hb't, hcb'⟩)
    · by_cases hek' : e.1 = k'
      · simp [assocGet, hek'] at hk'
        have hk2 : assocGet t k = some (PVal.ref b) := by
          simpa [assocGet, hek] using hk
        have hrefs : refsOf (e :: t) = b' :: refsOf t := by
          simp [refsOf, List.filterMap_cons, hk']
        rw [hrefs] at hnod
        simp only [List.flatMap_cons] at hnod
        have hdisj := List.disjoint_of_nodup_append hnod
        intro c hcb hcb'
        have hbt : b ∈ refsOf t := assocGet_ref_mem_refsOf t k b hk2
        exact hdisj hcb' (List.mem_flatMap.2 ⟨b, hbt, hcb⟩)
      · have hk2 : assocGet t k = some (PVal.ref b) := by
          simpa [assocGet, hek] using hk
        have hk2' : assocGet t k' = some (PVal.ref b') := by
          simpa [assocGet, hek'] using hk'
        have hnt : ((refsOf t).flatMap (reachL h0 n)).Nodup := by
          cases hv : e.2 with
          | ref x =>
            have hx : refsOf (e :: t) = x :: refsOf t := by
              simp [refsOf, List.filterMap_cons, hv]
            rw [hx] at hnod
            simp only [List.flatMap_cons] at hnod
            exact hnod.of_append_right
          | int m =>
            have hx : refsOf (e :: t) = refsOf t := by
              simp [refsOf, List.filterMap_cons, hv]
            rwa [hx] at hnod
          | str s =>
            have hx : refsOf (e :: t) = refsOf t := by
              simp [refsOf, List.filterMap_cons, hv]
            rwa [hx] at hnod
        exact ih b b' hk2 hk2' hnt

/-- The frame property of utils.mergedicts: when d1 is a tree of
dictionary cells (every cell reachable along exactly one path), d2's
side is closed under references and disjoint from d1's tree, all
iterated dicts have duplicate-free keys, and the fuel covers d1's depth,
then the call returns normally and modifies no cell outside d1's tree. -/
theorem mergedicts_frame :
    ∀ (n : Nat) (fuel : Nat) (h : Heap) (a1 a2 : Nat) (S2 : List Nat),
      boundedB h n a1 = true →
      (reachL h n a1).Nodup →
      closedRefs h S2 →
      wfKeys h S2 →
      a2 ∈ S2 →
      (∀ c ∈ reachL h n a1, c ∉ S2) →
      n ≤ fuel →
      ∃ h', mergedicts fuel h a1 a2 = MRes.ok h' ∧
        ∀ c, c ∉ reachL h n a1 → heapGet h' c = heapGet h c := by
  intro n
  induction n with
  | zero =>
    intro fuel h a1 a2 S2 hb
    simp [boundedB] at hb
  | succ n ih =>
    intro fuel h a1 a2 S2 hb hnd hcl hwf ha2 hdisj hfuel
    obtain ⟨f, rfl⟩ : ∃ f, fuel = f + 1 := ⟨fuel - 1, by omega⟩
    have hnf : n ≤ f := by omega
    obtain ⟨D1, hD1⟩ : ∃ D1, heapGet h a1 = some D1 := by
      simp only [boundedB] at hb
      cases hg : heapGet h a1 with
      | none => rw [hg] at hb; simp at hb
      | some d => exact ⟨d, rfl⟩
    have hbchild : ∀ b ∈ refsOf D1, boundedB h n b = true := by
      simp only [boundedB, hD1] at hb
      intro b hb'
      exact List.all_eq_true.1 hb b hb'
    set D2 := (heapGet h a2).getD [] with hD2
    have ha1r : a1 ∈ reachL h (n + 1) a1 := mem_reachL_self h (n + 1) a1
    have ha2nr : a2 ∉ reachL h (n + 1) a1 := fun hmem => hdisj a2 hmem ha2
    have hreach : reachL h (n + 1) a1 = a1 :: (refsOf D1).flatMap (reachL h n) := by
      simp [reachL, hD1]
    have hand : a1 ∉ (refsOf D1).flatMap (reachL h n) ∧
        ((refsOf D1).flatMap (reachL h n)).Nodup := by
      rw [hreach] at hnd
      exact ⟨(List.nodup_cons.1 hnd).1, (List.nodup_cons.1 hnd).2⟩
    have hsubchild : ∀ b ∈ refsOf D1, ∀ c ∈ reachL h n b, c ∈ reachL h (n + 1) a1 := by
      intro b hbm c hcm
      refine reachL_sub_of_child h n a1 b ?_ c hcm
      rw [hD1]
      exact hbm
    have ha1nsub : ∀ b ∈ refsOf D1, a1 ∉ reachL h n b := by
      intro b hbm hmem
      exact hand.1 (List.mem_flatMap.2 ⟨b, hbm, hmem⟩)
    have go : ∀ (ks : List String), ks.Nodup →
        ∀ (hc : Heap),
        (∀ c, c ∉ reachL h (n + 1) a1 → heapGet hc c = heapGet h c) →
        (∃ D1c, heapGet hc a1 = some D1c ∧
          ∀ k ∈ ks, assocGet D1c k = assocGet D1 k) →
        (∀ k ∈ ks, ∀ b, assocGet D1 k = some (PVal.ref b) →
          ∀ c ∈ reachL h n b, heapGet hc c = heapGet h c) →
        ∃ h', mergeGo (mergedicts f) a1 a2 D2.length hc ks = MRes.ok h' ∧
          ∀ c, c ∉ reachL h (n + 1) a1 → heapGet h' c = heapGet h c := by
      intro ks
      induction ks with
      | nil =>
        intro _ hc hinv1 _ _
        refine ⟨hc, ?_, hinv1⟩
        have ha2c : heapGet hc a2 = heapGet h a2 := hinv1 a2 ha2nr
        simp [mergeGo, ha2c, ← hD2]
      | cons k ks goih =>
        intro hknd hc hinv1 hinv2 hinv3
        obtain ⟨D1c, hD1c, hD1ck⟩ := hinv2
        have hknotin : k ∉ ks := (List.nodup_cons.1 hknd).1
        have hksnd : ks.Nodup := (List.nodup_cons.1 hknd).2
        have ha2c : heapGet hc a2 = heapGet h a2 := hinv1 a2 ha2nr
        have hd1eq : assocGet D1c k = assocGet D1 k := hD1ck k (List.mem_cons_self k ks)
        -- the assignment arm, shared by all non-recursing cases
        have hassign : ∀ v2 : PVal,
            ∃ h', mergeGo (mergedicts f) a1 a2 D2.length
              (heapSet hc a1 (assocSet D1c k v2)) ks = MRes.ok h' ∧
            ∀ c, c ∉ reachL h (n + 1) a1 → heapGet h' c = heapGet h c := by
          intro v2
          have hinv1' : ∀ c, c ∉ reachL h (n + 1) a1 →
              heapGet (heapSet hc a1 (assocSet D1c k v2)) c = heapGet h c := by
            intro c hcm
            have hca1 : a1 ≠ c := fun he => hcm (he ▸ ha1r)
            rw [heapGet_heapSet_ne hc a1 c _ hca1]
            exact hinv1 c hcm
          have hD1c' : heapGet (heapSet hc a1 (assocSet D1c k v2)) a1 =
              some (assocSet D1c k v2) := by
            refine heapGet_heapSet_self hc a1 _ ?_
            rw [hD1c]
            simp
          refine goih hksnd (heapSet hc a1 (assocSet D1c k v2)) hinv1'
            ⟨assocSet D1c k v2, hD1c', ?_⟩ ?_
          · intro k' hk'
            have hkk' : k ≠ k' := fun he => hknotin (he ▸ hk')
            rw [assocGet_assocSet_ne D1c k k' v2 hkk']
            exact hD1ck k' (List.mem_cons_of_mem k hk')
          · intro k' hk' b hb c hcm
            have hbm : b ∈ refsOf D1 := assocGet_ref_mem_refsOf D1 k' b hb
            have hca1 : a1 ≠ c := fun he => ha1nsub b hbm (he ▸ hcm)
            rw [heapGet_heapSet_ne hc a1 c _ hca1]
            exact hinv3 k' (List.mem_cons_of_mem k hk') b hb c hcm
        -- unfold one loop step
        simp only [mergeGo, ha2c, ← hD2, bne_self_eq_false, Bool.false_eq_true,
          if_false, hD1c, Option.getD_some]
        cases hv2 : assocGet D2 k with
        | none =>
          exact goih hksnd hc hinv1
            ⟨D1c, hD1c, fun k' hk' => hD1ck k' (List.mem_cons_of_mem k hk')⟩
            (fun k' hk' b hb c hcm => hinv3 k' (List.mem_cons_of_mem k hk') b hb c hcm)
        | some v2 =>
          cases hd1k : assocGet D1c k with
          | none =>
            cases v2 with
            | int m => exact hassign (PVal.int m)
            | str s => exact hassign (PVal.str s)
            | ref b2 => exact hassign (PVal.ref b2)
          | some v1 =>
            cases v1 with
            | int m1 =>
              cases v2 with
              | int m => exact hassign (PVal.int m)
              | str s => exact hassign (PVal.str s)
              | ref b2 => exact hassign (PVal.ref b2)
            | str s1 =>
              cases v2 with
              | int m => exact hassign (PVal.int m)
              | str s => exact hassign (PVal.str s)
              | ref b2 => exact hassign (PVal.ref b2)
            | ref b1 =>
              cases v2 with
              | int m => exact hassign (PVal.int m)
              | str s => exact hassign (PVal.str s)
              | ref b2 =>
                -- the recursive merge arm
                have hd1korig : assocGet D1 k = some (PVal.ref b1) := by
                  rw [← hd1eq, hd1k]
                have hb1 : b1 ∈ refsOf D1 :=
                  assocGet_ref_mem_refsOf D1 k b1 hd1korig
                have hb2S2 : b2 ∈ S2 := by
                  refine hcl a2 ha2 b2 ?_
                  rw [← hD2]
                  exact assocGet_ref_mem_refsOf D2 k b2 hv2
                have hagb1 : ∀ c ∈ reachL h n b1, heapGet hc c = heapGet h c :=
                  hinv3 k (List.mem_cons_self k ks) b1 hd1korig
                have hreq : reachL hc n b1 = reachL h n b1 :=
                  reachL_agree h hc n b1 hagb1
                have hbc : boundedB hc n b1 = true := by
                  rw [boundedB_agree h hc n b1 hagb1]
                  exact hbchild b1 hb1
                have hndc : (reachL hc n b1).Nodup := by
                  rw [hreq]
                  exact nodup_of_mem_flatMap (reachL h n) (refsOf D1) hand.2 b1 hb1
                have hagS2 : ∀ c ∈ S2, heapGet hc c = heapGet h c := by
                  intro c hcS
                  exact hinv1 c (fun hmem => hdisj c hmem hcS)
                have hclc := closedRefs_agree h hc S2 hagS2 hcl
                have hwfc := wfKeys_agree h hc S2 hagS2 hwf
                have hdisjc : ∀ c ∈ reachL hc n b1, c ∉ S2 := by
                  rw [hreq]
                  intro c hcm
                  exact hdisj c (hsubchild b1 hb1 c hcm)
                obtain ⟨h2, hrun, hframe2⟩ :=
                  ih f hc b1 b2 S2 hbc hndc hclc hwfc hb2S2 hdisjc hnf
                have hfr2 : ∀ c, c ∉ reachL h n b1 → heapGet h2 c = heapGet hc c := by
                  intro c hcm
                  refine hframe2 c ?_
                  rw [hreq]
                  exact hcm
                have hinv1'' : ∀ c, c ∉ reachL h (n + 1) a1 →
                    heapGet h2 c = heapGet h c := by
                  intro c hcm
                  have hcnb1 : c ∉ reachL h n b1 :=
                    fun hmem => hcm (hsubchild b1 hb1 c hmem)
                  rw [hfr2 c hcnb1]
                  exact hinv1 c hcm
                have hD1c2 : heapGet h2 a1 = some D1c := by
                  rw [hfr2 a1 (ha1nsub b1 hb1)]
                  exact hD1c
                have hD1ck' : ∀ k' ∈ ks, assocGet D1c k' = assocGet D1 k' :=
                  fun k' hk' => hD1ck k' (List.mem_cons_of_mem k hk')
                have hinv3'' : ∀ k' ∈ ks, ∀ b, assocGet D1 k' = some (PVal.ref b) →
                    ∀ c ∈ reachL h n b, heapGet h2 c = heapGet h c := by
                  intro k' hk' b hb c hcm
                  have hkk' : k ≠ k' := fun he => hknotin (he ▸ hk')
                  have hcnb1 : c ∉ reachL h n b1 := by
                    intro hmem
                    exact children_reach_disjoint h n k k' hkk' D1 b1 b
                      hd1korig hb hand.2 c hmem hcm
                  rw [hfr2 c hcnb1]
                  exact hinv3 k' (List.mem_cons_of_mem k hk') b hb c hcm
                obtain ⟨h3, hrun3, hfr3⟩ :=
                  goih hksnd h2 hinv1'' ⟨D1c, hD1c2, hD1ck'⟩ hinv3''
                refine ⟨h3, ?_, hfr3⟩
                simp only [hrun]
                exact hrun3
    have hksnd : (D2.map (fun e => e.1)).Nodup := by
      have hwfa2 := hwf a2 ha2
      rw [← hD2] at hwfa2
      exact hwfa2
    obtain ⟨h', hrun, hfr⟩ := go (D2.map (fun e => e.1)) hksnd h
      (fun c _ => rfl)
      ⟨D1, hD1, fun k _ => rfl⟩
      (fun k _ b _ c _ => rfl)
    refine ⟨h', ?_, hfr⟩
    simp only [mergedicts, ← hD2]
    exact hrun

/-- C9 counterexample: with aliasing (d1 = cell 0 holds d2 = cell 1 as a
value), mergedicts mutates d2 itself, inserting key "x" into cell 1, and
then raises (the CPython iterator detects the size change of the dict it
is iterating), rather than returning None and leaving d2 unmodified.  In
Python: d2 = {"a": {"x": 1}}; d1 = {"a": d2}; mergedicts(d1, d2). -/
theorem mergedicts_mutates_d2_cex :
    mergedicts 9 mutationCexHeap 0 1 = MRes.exc
      [ (0, [("a", PVal.ref 1)]),
        (1, [("a", PVal.ref 2), ("x", PVal.int 1)]),
        (2, [("x", PVal.int 1)]) ] ∧
    heapGet
      [ (0, [("a", PVal.ref 1)]),
        (1, [("a", PVal.ref 2), ("x", PVal.int 1)]),
        (2, [("x", PVal.int 1)]) ] 1 ≠ heapGet mutationCexHeap 1 :=
  ⟨rfl, by decide⟩

/-- C9 amended: when d1 is a tree of dictionary cells disjoint from the
reference-closed region holding d2 (so no aliasing between or inside the
operands) and the dicts are well-formed, mergedicts returns normally
(Python: returns None), produces its result by mutating cells of d1's
tree only, and never mutates d2 or any dictionary reachable from d2;
on the spec's example the content d1 ends with is the recursive
key-by-key merge of the two operands. -/
theorem mergedicts_in_place_frame :
    (∀ (n fuel : Nat) (h : Heap) (a1 a2 : Nat) (S2 : List Nat),
      boundedB h n a1 = true →
      (reachL h n a1).Nodup →
      closedRefs h S2 →
      wfKeys h S2 →
      a2 ∈ S2 →
      (∀ c ∈ reachL h n a1, c ∉ S2) →
      n ≤ fuel →
      ∃ h', mergedicts fuel h a1 a2 = MRes.ok h' ∧
        (∀ c, c ∉ reachL h n a1 → heapGet h' c = heapGet h c) ∧
        (∀ c ∈ S2, heapGet h' c = heapGet h c)) ∧
    (∃ h', mergedicts 9 metadataExampleHeap 0 2 = MRes.ok h' ∧
      readVal h' 9 (PVal.ref 0) = some (MTree.node (mergeKVs
        [("a", MTree.int 1), ("b", MTree.node [("x", MTree.int 1)])]
        [("b", MTree.node [("y", MTree.int 2)]), ("c", MTree.int 3)]))) := by
  constructor
  · intro n fuel h a1 a2 S2 hb hnd hcl hwf ha2 hdisj hfuel
    obtain ⟨h', hrun, hfr⟩ :=
      mergedicts_frame n fuel h a1 a2 S2 hb hnd hcl hwf ha2 hdisj hfuel
    exact ⟨h', hrun, hfr, fun c hcS => hfr c (fun hmem => hdisj c hmem hcS)⟩
  · exact ⟨[ (0, [("a", PVal.int 1), ("b", PVal.ref 1), ("c", PVal.int 3)]),
             (1, [("x", PVal.int 1), ("y", PVal.int 2)]),
             (2, [("b", PVal.ref 3), ("c", PVal.int 3)]),
             (3, [("y", PVal.int 2)]) ], rfl, by
    simp only [mergeKVs, assocGet, assocSet]
    norm_num
    rfl⟩

/-- C9 amended witness: on the disjoint example heap (d1 tree = cells
0 and 1, d2 region = cells 2 and 3) the merge returns normally and
leaves d2's cells untouched. -/
theorem mergedicts_in_place_frame_witness :
    ∃ h', mergedicts 9 metadataExampleHeap 0 2 = MRes.ok h' ∧
      (∀ c, c ∉ reachL metadataExampleHeap 2 0 →
        heapGet h' c = heapGet metadataExampleHeap c) ∧
      (∀ c ∈ [2, 3], heapGet h' c = heapGet metadataExampleHeap c) :=
  mergedicts_in_place_frame.1 2 9 metadataExampleHeap 0 2 [2, 3]
    (by decide) (by decide) (by unfold closedRefs; decide)
    (by unfold wfKeys; decide) (by decide) (by decide) (by decide)

/-- C6 counterexample: the partition writes of source.py's _skim are not
create-then-append.  On an existing destination the _skim write (default
mode "w") truncates the file to the new dataset while the
create-then-append write would have appended; and on a missing
destination the _skim write succeeds directly with no create-empty step,
whereas the append-mode writer it supposedly relies on would fail there. -/
theorem skim_write_not_append_cex :
    skimSaveFiles [("tco3_zm.nc", [skimDSEx])] [("tco3_zm.nc", skimDSEx2)] =
      some [("tco3_zm.nc", [skimDSEx2])] ∧
    toNetcdf [("tco3_zm.nc", [skimDSEx])] "tco3_zm.nc" skimDSEx2 =
      some [("tco3_zm.nc", [skimDSEx, skimDSEx2])] ∧
    ([("tco3_zm.nc", [skimDSEx2])] : FileSys) ≠
      [("tco3_zm.nc", [skimDSEx, skimDSEx2])] ∧
    skimSaveFiles [] [("tco3_zm.nc", skimDSEx2)] =
      some [("tco3_zm.nc", [skimDSEx2])] ∧
    saveMfdataset WriteMode.append [] [("tco3_zm.nc", skimDSEx2)] = none :=
  ⟨rfl, rfl, by decide, rfl, rfl⟩

/-- C6 amended: partition writes through utils.to_netcdf (the sources.py
Model.skim path) are create-then-append: the destination is first
ensured to exist, created empty when missing, and only then appended,
because the multi-file writer's append mode fails exactly on a missing
file; but the partition writes of source.py's _skim call the multi-file
writer in its default write mode with no create-empty step: they always
succeed and leave the newly written dataset as the file's whole content,
truncating instead of appending. -/
theorem partition_write_modes :
    (∀ (fs : FileSys) (p : String) (d : SkimDS),
      assocGet (createEmptyIfMissing fs p) p = some ((assocGet fs p).getD []) ∧
      toNetcdf fs p d = some (assocSet (createEmptyIfMissing fs p) p
        (((assocGet fs p).getD []) ++ [d]))) ∧
    (∀ (fs : FileSys) (p : String) (d : SkimDS),
      appendModeWrite fs p d = none ↔ assocGet fs p = none) ∧
    (∀ (fs : FileSys) (p : String) (d : SkimDS),
      ∃ fs', skimSaveFiles fs [(p, d)] = some fs' ∧ assocGet fs' p = some [d]) := by
  refine ⟨to_netcdf_create_then_append, ?_, ?_⟩
  · intro fs p d
    constructor
    · intro hn
      unfold appendModeWrite at hn
      cases hg : assocGet fs p with
      | none => rfl
      | some c => rw [hg] at hn; simp at hn
    · intro hg
      simp [appendModeWrite, hg]
  · intro fs p d
    cases hg : assocGet fs p with
    | some c =>
      refine ⟨assocSet fs p [d], ?_, assocGet_assocSet_self fs p [d]⟩
      simp [skimSaveFiles, saveMfdataset, hg]
    | none =>
      refine ⟨fs ++ [(p, [d])], ?_, assocGet_append_right fs p [d] hg⟩
      simp [skimSaveFiles, saveMfdataset, hg]
